import Mathlib

/-!
Vehicle fleet demonstration (`main.cpp`): vehicles, fleet, total value.

A shallow embedding of the vehicle class hierarchy (`AbstractVehicle`, `Car`,
`Sedan`, `SUV`, `SportsCar`, `ElectricCar`) and of `Fleet`, with the
properties of the specification proved about it.

Modelling choices:

* C++ `double` is IEEE 754 binary64 with the default rounding (to nearest, ties
  to even). The only arithmetic the program does on a `double` is
  `total += price`, so the model has addition only; it is an exact integer
  model (`round_nearest`, `round_valid`, `add_valid` state what it satisfies).
* C++ `int` fields are only stored and printed, never computed with: `Int`.
* `std::string` is `String`; the program only concatenates and prints strings.
* A vehicle has no mutating member function, so the `AbstractVehicle*` held by
  the fleet is modelled by the object it points to; a null pointer (which the
  program never passes) has no counterpart.
* `std::cout << ...` appends text; a `void` function that prints is embedded as
  the text it prints. How a `double` is printed is library behaviour and is a
  parameter `shw` of the printing functions; `showDouble` is a model of the
  default format, used where a concrete one is needed.
* `_logger->Log(message)` is a call through the abstract `ILogger` interface
  (never null in the program); it is recorded as an event carrying the message,
  in program order with the text written to `std::cout`.
-/

set_option exponentiation.threshold 4096

namespace FleetDemo

/-! ## `double` -/

/-- An IEEE 754 binary64 value. Every finite double is a whole multiple of the
smallest subnormal `2^-1074`, so a finite value is kept as a sign and that
multiple: `fin neg mag` is `(-1)^neg * mag * 2^-1074`. Zero keeps its sign.
A NaN keeps its sign bit (it shows when the value is printed); its payload is
not tracked. -/
inductive Double where
  | nan (neg : Bool) : Double
  | inf (neg : Bool) : Double
  | fin (neg : Bool) (mag : Nat) : Double
  deriving DecidableEq, Repr

namespace Double

/-- Binary digits of `n`, counted by halving at most `fuel` times. -/
def bitsAux : Nat → Nat → Nat
  | 0, _ => 0
  | fuel + 1, n => if n = 0 then 0 else bitsAux fuel (n / 2) + 1

/-- Number of binary digits of a magnitude (`0` for `0`). -/
def bits (M : Nat) : Nat := bitsAux M M

/-- A magnitude (in units of `2^-1074`) that a finite double can hold: at most
53 significant bits, below `2^1024`. -/
def Representable (M : Nat) : Prop :=
  2 ^ (bits M - 53) ∣ M ∧ M < 2 ^ 2098

instance (M : Nat) : Decidable (Representable M) := by
  unfold Representable; infer_instance

/-- Values that are doubles: the finite ones have a representable magnitude. -/
def Valid : Double → Prop
  | fin _ mag => Representable mag
  | _ => True

instance (x : Double) : Decidable (Valid x) := by
  cases x <;> unfold Valid <;> infer_instance

/-- Rounding of the exact magnitude `M` (units of `2^-1074`) to the nearest
double, ties to the even significand, overflow to infinity. -/
def round (neg : Bool) (M : Nat) : Double :=
  if bits M ≤ 53 then fin neg M
  else
    let sh := bits M - 53
    let q := M / 2 ^ sh
    let r := M % 2 ^ sh
    let half := 2 ^ (sh - 1)
    let q1 := if half < r ∨ (r = half ∧ q % 2 = 1) then q + 1 else q
    if 2 ^ 2098 ≤ q1 * 2 ^ sh then inf neg else fin neg (q1 * 2 ^ sh)

/-- IEEE 754 addition `x + y` in round-to-nearest-even. The standard leaves
the sign of a NaN result open; it is taken as the x86-64 `addsd` instruction
gives it: a NaN operand is passed on (the first one when both are NaN), and
`inf + (-inf)` is the default NaN, whose sign bit is set. -/
def add : Double → Double → Double
  | nan a, _ => nan a
  | _, nan b => nan b
  | inf a, inf b => if a = b then inf a else nan true
  | inf a, fin _ _ => inf a
  | fin _ _, inf b => inf b
  | fin a x, fin b y =>
    if a = b then
      (if x + y = 0 then fin a 0 else round a (x + y))
    else if x = y then fin false 0
    else if y < x then round a (x - y)
    else round b (y - x)

instance : Add Double := ⟨add⟩

/-- The double equal to the whole number `n` when `n` has at most 53
significant bits (the conversion of such an integer literal). -/
def ofNat (n : Nat) : Double := fin false (n * 2 ^ 1074)

/-- The double `m * 2^e` for `e ≥ -1074` (used for literals such as `2.5`). -/
def ofScaled (neg : Bool) (m : Nat) (e : Int) : Double :=
  fin neg (m * 2 ^ (e + 1074).toNat)

/-- The literal `0.0`. -/
def zero : Double := fin false 0

/-- Whether `x < 0.0` holds (false for both zeros and for NaN). -/
def isNegative : Double → Bool
  | nan _ => false
  | inf neg => neg
  | fin neg mag => neg && decide (mag ≠ 0)

end Double


/-! ## The vehicle classes -/

/-- Fields of `class AbstractVehicle`. -/
structure AbstractVehicle where
  _manufacturer : String
  _model : String
  _year : Int
  _price : Double
  deriving DecidableEq, Repr

/-- `AbstractVehicle::AbstractVehicle`: stores its four arguments. -/
def AbstractVehicle.new (manufacturer model : String) (year : Int)
    (price : Double) : AbstractVehicle :=
  { _manufacturer := manufacturer, _model := model, _year := year, _price := price }

/-- `AbstractVehicle::GetPrice`. -/
def AbstractVehicle.GetPrice (this : AbstractVehicle) : Double := this._price

/-- Fields of `class Car : public AbstractVehicle`. -/
structure Car extends AbstractVehicle where
  _doors : Int
  _engineSize : Double
  _fuelType : String
  deriving DecidableEq, Repr

/-- `Car::Car`. -/
def Car.new (manufacturer model : String) (year : Int) (price : Double) (doors : Int)
    (engineSize : Double) (fuelType : String) : Car :=
  { toAbstractVehicle := AbstractVehicle.new manufacturer model year price,
    _doors := doors, _engineSize := engineSize, _fuelType := fuelType }

/-- Fields of `class Sedan : public Car`. -/
structure Sedan extends Car where
  _trunkCapacity : Double
  deriving DecidableEq, Repr

/-- `Sedan::Sedan`. -/
def Sedan.new (manufacturer model : String) (year : Int) (price : Double) (doors : Int)
    (engineSize : Double) (fuelType : String) (trunkCapacity : Double) : Sedan :=
  { toCar := Car.new manufacturer model year price doors engineSize fuelType,
    _trunkCapacity := trunkCapacity }

/-- Fields of `class SUV : public Car`. -/
structure SUV extends Car where
  _fourWheelDrive : Bool
  _clearance : Double
  deriving DecidableEq, Repr

/-- `SUV::SUV`. -/
def SUV.new (manufacturer model : String) (year : Int) (price : Double) (doors : Int)
    (engineSize : Double) (fuelType : String) (fourWheelDrive : Bool)
    (clearance : Double) : SUV :=
  { toCar := Car.new manufacturer model year price doors engineSize fuelType,
    _fourWheelDrive := fourWheelDrive, _clearance := clearance }

/-- Fields of `class SportsCar : public Car`. -/
structure SportsCar extends Car where
  _zeroToHundred : Double
  _topSpeed : Int
  deriving DecidableEq, Repr

/-- `SportsCar::SportsCar`. -/
def SportsCar.new (manufacturer model : String) (year : Int) (price : Double)
    (doors : Int) (engineSize : Double) (fuelType : String) (zeroToHundred : Double)
    (topSpeed : Int) : SportsCar :=
  { toCar := Car.new manufacturer model year price doors engineSize fuelType,
    _zeroToHundred := zeroToHundred, _topSpeed := topSpeed }

/-- Fields of `class ElectricCar : public Car, public IElectricVehicle`. -/
structure ElectricCar extends Car where
  _batteryCapacity : Double
  _range : Double
  deriving DecidableEq, Repr

/-- `ElectricCar::ElectricCar`: the `Car` part gets engine size `0.0` and fuel
type `"Electric"`. -/
def ElectricCar.new (manufacturer model : String) (year : Int) (price : Double)
    (doors : Int) (batteryCapacity range : Double) : ElectricCar :=
  { toCar := Car.new manufacturer model year price doors Double.zero "Electric",
    _batteryCapacity := batteryCapacity, _range := range }

/-- `ElectricCar::GetBatteryCapacity`. -/
def ElectricCar.GetBatteryCapacity (this : ElectricCar) : Double := this._batteryCapacity

/-- `ElectricCar::GetRange`. -/
def ElectricCar.GetRange (this : ElectricCar) : Double := this._range

/-- The object behind a (non-null) `AbstractVehicle*`: an instance of one of
the five concrete classes. Objects have no mutating member, so a pointer is
modelled by the value it points to. -/
inductive Vehicle where
  | car (c : Car)
  | sedan (s : Sedan)
  | suv (s : SUV)
  | sportsCar (s : SportsCar)
  | electricCar (e : ElectricCar)
  deriving DecidableEq, Repr

/-- The `Car` base subobject. -/
def Vehicle.toCar : Vehicle → Car
  | .car c => c
  | .sedan s => s.toCar
  | .suv s => s.toCar
  | .sportsCar s => s.toCar
  | .electricCar e => e.toCar

/-- `Car::GetVehicleType`. -/
def Car.GetVehicleType (_ : Car) : String := "Car"

/-- `Sedan::GetVehicleType`. -/
def Sedan.GetVehicleType (_ : Sedan) : String := "Sedan"

/-- `SUV::GetVehicleType`. -/
def SUV.GetVehicleType (_ : SUV) : String := "SUV"

/-- `SportsCar::GetVehicleType`. -/
def SportsCar.GetVehicleType (_ : SportsCar) : String := "Sports Car"

/-- `ElectricCar::GetVehicleType`. -/
def ElectricCar.GetVehicleType (_ : ElectricCar) : String := "Electric Car"

/-- The virtual call `vehicle->GetVehicleType()`: the override of the dynamic
class. -/
def Vehicle.GetVehicleType : Vehicle → String
  | .car c => c.GetVehicleType
  | .sedan s => s.GetVehicleType
  | .suv s => s.GetVehicleType
  | .sportsCar s => s.GetVehicleType
  | .electricCar e => e.GetVehicleType

/-- The (non-virtual) call `vehicle->GetPrice()`. -/
def Vehicle.GetPrice (this : Vehicle) : Double := this.toCar.toAbstractVehicle.GetPrice

/-! ### Printing

`shw` is what `std::cout << x` writes for a `double` `x`: library behaviour
(default flags, precision 6), a parameter of the printing functions. An `int`
is written in decimal, with a leading `-` when negative. `std::endl` writes a
newline. -/

/-- Number of decimal digits of `n` minus one, by at most `fuel` divisions. -/
def log10Floor : Nat → Nat → Nat
  | 0, _ => 0
  | fuel + 1, n => if n < 10 then 0 else log10Floor fuel (n / 10) + 1

/-- The least `k` (up to `fuel`) with `D ≤ N * 10^k`. -/
def log10Neg : Nat → Nat → Nat → Nat
  | 0, _, _ => 0
  | fuel + 1, N, D => if D ≤ N then 0 else log10Neg fuel (N * 10) D + 1

/-- Drops the zeros at the end of a digit string. -/
def stripZeros (ds : List Char) : List Char :=
  (ds.reverse.dropWhile (fun c => c == '0')).reverse

/-- Decimal digits of `n`, padded with zeros on the left to `width`. -/
def digitsPadded (width n : Nat) : List Char :=
  List.replicate (width - (Nat.toDigits 10 n).length) '0' ++ Nat.toDigits 10 n

/-- The quotient `num / den` rounded to the nearest whole number, ties to even. -/
def divRound (num den : Nat) : Nat :=
  if den < 2 * (num % den) ∨ (2 * (num % den) = den ∧ (num / den) % 2 = 1)
  then num / den + 1 else num / den

/-- The text of a positive finite magnitude `N * 2^-1074` in the style of
`printf("%g")` with precision 6: six significant digits, scientific when the
decimal exponent is below `-4` or at least `6`, trailing zeros removed. -/
def showMagnitude (N : Nat) : List Char :=
  let D := 2 ^ 1074
  let X0 : Int := if D ≤ N then (log10Floor N (N / D) : Int) else -(log10Neg 400 N D : Int)
  let q0 := if X0 ≤ 5 then divRound (N * 10 ^ (5 - X0).toNat) D
            else divRound N (D * 10 ^ (X0 - 5).toNat)
  let X : Int := if q0 = 1000000 then X0 + 1 else X0
  let q := if q0 = 1000000 then 100000 else q0
  let ds := digitsPadded 6 q
  if 0 ≤ X ∧ X < 6 then
    let frac := stripZeros (ds.drop (X.toNat + 1))
    ds.take (X.toNat + 1) ++ (if frac = [] then [] else '.' :: frac)
  else if -4 ≤ X ∧ X < 0 then
    '0' :: '.' :: (List.replicate ((-X).toNat - 1) '0' ++ stripZeros ds)
  else
    let frac := stripZeros (ds.drop 1)
    ds.take 1 ++ (if frac = [] then [] else '.' :: frac)
      ++ ('e' :: (if X < 0 then '-' else '+') :: digitsPadded 2 X.natAbs)

/-- A model of what a stream with default flags writes for a `double` (a NaN
is shown as `nan`, or `-nan` when its sign bit is set): the rendering used when
a concrete `shw` is needed. -/
def showDouble : Double → String
  | .nan neg => if neg then "-nan" else "nan"
  | .inf neg => if neg then "-inf" else "inf"
  | .fin neg mag =>
    String.mk ((if neg then [ '-' ] else []) ++ (if mag = 0 then [ '0' ] else showMagnitude mag))

/-- `std::cout << n` for an `int`. -/
def showInt (n : Int) : String := toString n

/-- `Car::DisplayInfo`, run on an object of any class derived from `Car`: the
tag comes from the virtual `GetVehicleType()`. -/
def Car.DisplayInfo (shw : Double → String) (this : Vehicle) : String :=
  this.GetVehicleType ++ " - " ++ this.toCar._manufacturer ++ " " ++ this.toCar._model
    ++ " (" ++ showInt this.toCar._year ++ "), Price: $" ++ shw this.toCar._price
    ++ ", Doors: " ++ showInt this.toCar._doors ++ ", Engine: "
    ++ shw this.toCar._engineSize ++ "L"
    ++ ", Fuel: " ++ this.toCar._fuelType ++ "\n"

/-- `Sedan::DisplayInfo`. -/
def Sedan.DisplayInfo (shw : Double → String) (this : Sedan) : String :=
  Car.DisplayInfo shw (.sedan this)
    ++ ("  Trunk capacity: " ++ shw this._trunkCapacity ++ " liters" ++ "\n")

/-- `SUV::DisplayInfo`. -/
def SUV.DisplayInfo (shw : Double → String) (this : SUV) : String :=
  Car.DisplayInfo shw (.suv this)
    ++ ("  4WD: " ++ (if this._fourWheelDrive then "Yes" else "No")
      ++ ", Clearance: " ++ shw this._clearance ++ "mm" ++ "\n")

/-- `SportsCar::DisplayInfo`. -/
def SportsCar.DisplayInfo (shw : Double → String) (this : SportsCar) : String :=
  Car.DisplayInfo shw (.sportsCar this)
    ++ ("  0-100 km/h: " ++ shw this._zeroToHundred ++ "s"
      ++ ", Top speed: " ++ showInt this._topSpeed ++ "km/h" ++ "\n")

/-- `ElectricCar::DisplayInfo`. -/
def ElectricCar.DisplayInfo (shw : Double → String) (this : ElectricCar) : String :=
  (Vehicle.electricCar this).GetVehicleType ++ " - " ++ this._manufacturer ++ " "
    ++ this._model
    ++ " (" ++ showInt this._year ++ "), Price: $" ++ shw this._price
    ++ ", Doors: " ++ showInt this._doors
    ++ ", Battery: " ++ shw this._batteryCapacity ++ " kWh"
    ++ ", Range: " ++ shw this._range ++ " km" ++ "\n"

/-- The virtual call `vehicle->DisplayInfo()`. -/
def Vehicle.DisplayInfo (shw : Double → String) : Vehicle → String
  | .car c => Car.DisplayInfo shw (.car c)
  | .sedan s => s.DisplayInfo shw
  | .suv s => s.DisplayInfo shw
  | .sportsCar s => s.DisplayInfo shw
  | .electricCar e => e.DisplayInfo shw

/-! ## The fleet -/

/-- An observable effect of a `Fleet` method. -/
inductive Event where
  /-- the call `_logger->Log(message)` on the injected `ILogger` -/
  | Log (message : String)
  /-- text written to `std::cout` by the fleet or by a vehicle -/
  | cout (text : String)
  deriving DecidableEq, Repr

/-- The messages of the `Log` calls among some effects, in order. -/
def logEntries : List Event → List String
  | [] => []
  | .Log m :: es => m :: logEntries es
  | .cout _ :: es => logEntries es

/-- The pieces of text written to `std::cout` among some effects, in order. -/
def coutBlocks : List Event → List String
  | [] => []
  | .Log _ :: es => coutBlocks es
  | .cout t :: es => t :: coutBlocks es

/-- All the text written to `std::cout` among some effects. -/
def coutText (es : List Event) : String := String.join (coutBlocks es)

/-- `ConsoleLogger::Log`: the text it writes to `std::cout`. -/
def ConsoleLogger.Log (message : String) : String := "[Console] " ++ message ++ "\n"

/-- `FileLogger::Log`: the text it appends to its file, nothing when the file
is not open. -/
def FileLogger.Log (is_open : Bool) (message : String) : String :=
  if is_open then "[File] " ++ message ++ "\n" else ""

/-- Standard output of some effects when the injected logger is a
`ConsoleLogger`: its lines and the program's own text, in program order. -/
def consoleOutput (es : List Event) : String :=
  String.join (es.map (fun e =>
    match e with
    | .Log m => ConsoleLogger.Log m
    | .cout t => t))

/-- The data member `_vehicles` of `class Fleet` (the `_logger` member is a
fixed non-null reference to the logger, whose calls are recorded as events). -/
structure Fleet where
  _vehicles : List Vehicle
  deriving DecidableEq, Repr

/-- `Fleet::Fleet`: the vector starts empty. -/
def Fleet.new : Fleet := { _vehicles := [] }

/-- `Fleet::AddVehicle`: the fleet afterwards and the effects. -/
def Fleet.AddVehicle (this : Fleet) (vehicle : Vehicle) : Fleet × List Event :=
  ({ _vehicles := this._vehicles ++ [vehicle] },
   [Event.Log ("Добавлено транспортное средство: " ++ vehicle.GetVehicleType)])

/-- `Fleet::DisplayFleet` (a `const` method): the fleet afterwards and the
effects. The loop visits `_vehicles` front to back. -/
def Fleet.DisplayFleet (shw : Double → String) (this : Fleet) : Fleet × List Event :=
  (this,
   this._vehicles.foldl (fun out vehicle => out ++ [Event.cout (vehicle.DisplayInfo shw)])
     [Event.Log "Вывод автопарка на экран", Event.cout ("=== Fleet Overview ===" ++ "\n")])

/-- `Fleet::CalculateTotalValue` (a `const` method): the fleet afterwards, the
returned total and the effects. The loop visits `_vehicles` front to back. -/
def Fleet.CalculateTotalValue (this : Fleet) : Fleet × Double × List Event :=
  (this,
   this._vehicles.foldl (fun total vehicle => total + vehicle.GetPrice) Double.zero,
   [Event.Log "Расчет общей стоимости автопарка"])

/-- Calls `AddVehicle` for each vehicle of `vs` in turn, starting from `fleet`
with `events` already emitted. -/
def addAll (vs : List Vehicle) (start : Fleet × List Event) : Fleet × List Event :=
  vs.foldl (fun st v => ((st.1.AddVehicle v).1, st.2 ++ (st.1.AddVehicle v).2)) start

/-- A freshly created fleet to which the vehicles `vs` were added in order. -/
def fleetOf (vs : List Vehicle) : Fleet := (addAll vs (Fleet.new, [])).1

/-- The fleet built in `main`. -/
def mainVehicles : List Vehicle :=
  [ .sedan (Sedan.new "Toyota" "Camry" 2022 (Double.ofNat 25000) 4
      (Double.ofScaled false 5 (-1)) "Gasoline" (Double.ofNat 500)),
    .suv (SUV.new "Ford" "Explorer" 2021 (Double.ofNat 35000) 5 (Double.ofNat 3)
      "Gasoline" true (Double.ofNat 210)),
    .sportsCar (SportsCar.new "Porsche" "911" 2023 (Double.ofNat 120000) 2
      (Double.ofNat 3) "Gasoline" (Double.ofScaled false 8331659310635418 (-51)) 320),
    .electricCar (ElectricCar.new "Tesla" "Model 3" 2023 (Double.ofNat 45000) 4
      (Double.ofNat 75) (Double.ofNat 450)) ]

/-- A plain `Car` with the given price (the other fields are fixed). -/
def carPriced (price : Double) : Vehicle :=
  .car (Car.new "Lada" "Niva" 2020 price 4 (Double.ofNat 2) "Gasoline")

/-- The common line of the car family as the specification words it: tag,
manufacturer, model, year, price, doors, engine size, fuel type, on one line. -/
def commonLine (shw : Double → String) (tag : String) (c : Car) : String :=
  tag ++ " - " ++ c._manufacturer ++ " " ++ c._model ++ " (" ++ showInt c._year
    ++ "), Price: $" ++ shw c._price ++ ", Doors: " ++ showInt c._doors
    ++ ", Engine: " ++ shw c._engineSize ++ "L, Fuel: " ++ c._fuelType ++ "\n"

/-- The text `needle` occurs somewhere in `text`. -/
def Occurs (needle text : String) : Prop := needle.toList <:+: text.toList

instance (needle text : String) : Decidable (Occurs needle text) := by
  unfold Occurs; infer_instance

/-! ## Facts about the model of `double` -/

theorem bitsAux_zero (fuel : Nat) : Double.bitsAux fuel 0 = 0 := by
  cases fuel <;> simp [Double.bitsAux]

theorem bitsAux_spec (fuel : Nat) :
    ∀ n : Nat, n ≤ fuel →
      n < 2 ^ Double.bitsAux fuel n ∧ (n ≠ 0 → 2 ^ (Double.bitsAux fuel n - 1) ≤ n) := by
  induction fuel with
  | zero =>
    intro n hn
    have h0 : n = 0 := by omega
    subst h0
    simp [Double.bitsAux]
  | succ fuel ih =>
    intro n hn
    unfold Double.bitsAux
    split
    · rename_i h0
      subst h0
      simp
    · rename_i h0
      obtain ⟨hlt, hge⟩ := ih (n / 2) (by omega)
      refine ⟨?_, fun _ => ?_⟩
      · rw [pow_succ]
        omega
      · simp only [Nat.add_sub_cancel]
        by_cases h2 : n / 2 = 0
        · rw [h2, bitsAux_zero]
          simp
          omega
        · have hb := hge h2
          have hpos : Double.bitsAux fuel (n / 2) ≠ 0 := by
            intro hz
            rw [hz] at hlt
            simp at hlt
            exact h2 hlt
          obtain ⟨b, hb1⟩ := Nat.exists_eq_succ_of_ne_zero hpos
          rw [hb1] at hb ⊢
          simp only [Nat.succ_sub_one] at hb
          rw [pow_succ]
          omega

/-- `bits M` is the bit length of `M`: the fuel always suffices. -/
theorem bits_spec (M : Nat) :
    M < 2 ^ Double.bits M ∧ (M ≠ 0 → 2 ^ (Double.bits M - 1) ≤ M) :=
  bitsAux_spec M M (Nat.le_refl M)
theorem bitsAux_le (fuel : Nat) : ∀ n k : Nat, n < 2 ^ k → Double.bitsAux fuel n ≤ k := by
  induction fuel with
  | zero => intro n k _; simp [Double.bitsAux]
  | succ fuel ih =>
    intro n k h
    unfold Double.bitsAux
    split
    · exact Nat.zero_le _
    · rename_i hn
      cases k with
      | zero => simp at h; exact absurd h hn
      | succ k =>
        have h2 : n / 2 < 2 ^ k := by
          rw [Nat.div_lt_iff_lt_mul (by norm_num)]
          rw [pow_succ] at h
          exact h
        exact Nat.succ_le_succ (ih _ _ h2)

/-- The pieces of a rounding step: with `B = 2^sh` the unit of the last place,
`M = q * B + r`, `r < B`, `2^52 ≤ q`, and the rounded significand `q1` is `q` or
`q + 1`, within half a unit of `M`, even when `M` is half-way. -/
theorem round_step (M : Nat) (hb : ¬ Double.bits M ≤ 53) :
    ∃ B q r q1 : Nat, B = 2 ^ (Double.bits M - 53) ∧ q = M / B ∧ r = M % B
      ∧ M = q * B + r ∧ r < B ∧ 2 ^ 52 ≤ q ∧ q < 2 ^ 53
      ∧ q1 = (if 2 ^ (Double.bits M - 53 - 1) < r
                ∨ (r = 2 ^ (Double.bits M - 53 - 1) ∧ q % 2 = 1) then q + 1 else q)
      ∧ ((q1 = q ∧ (2 * r < B ∨ (2 * r = B ∧ q % 2 = 0)))
        ∨ (q1 = q + 1 ∧ (B < 2 * r ∨ (2 * r = B ∧ q % 2 = 1)))) := by
  have hM0 : M ≠ 0 := by
    intro h0
    apply hb
    rw [h0]
    simp [Double.bits, Double.bitsAux]
  obtain ⟨hlt, hge⟩ := bits_spec M
  have hge := hge hM0
  have hBpos : 0 < 2 ^ (Double.bits M - 53) := by positivity
  have hsplit : Double.bits M - 1 = 52 + (Double.bits M - 53) := by omega
  have hsplit2 : Double.bits M = 53 + (Double.bits M - 53) := by omega
  have hsh : Double.bits M - 53 = (Double.bits M - 53 - 1) + 1 := by omega
  have hB2 : 2 ^ (Double.bits M - 53) = 2 * 2 ^ (Double.bits M - 53 - 1) := by
    conv_lhs => rw [hsh]
    rw [pow_succ]; ring
  refine ⟨2 ^ (Double.bits M - 53), M / 2 ^ (Double.bits M - 53),
    M % 2 ^ (Double.bits M - 53), _, rfl, rfl, rfl, ?_, Nat.mod_lt _ hBpos, ?_, ?_, rfl, ?_⟩
  · rw [Nat.mul_comm]; exact (Nat.div_add_mod _ _).symm
  · rw [Nat.le_div_iff_mul_le hBpos, ← pow_add, ← hsplit]
    exact hge
  · rw [Nat.div_lt_iff_lt_mul hBpos, ← pow_add, ← hsplit2]
    exact hlt
  · split
    · rename_i hc
      right
      refine ⟨rfl, ?_⟩
      rcases hc with hc | ⟨hc, _⟩ <;> omega
    · rename_i hc
      left
      refine ⟨rfl, ?_⟩
      rw [not_or] at hc
      omega

theorem round_cases (neg : Bool) (M : Nat) :
    (Double.bits M ≤ 53 ∧ Double.round neg M = Double.fin neg M)
    ∨ (¬ Double.bits M ≤ 53 ∧ ∃ B q r q1 : Nat, B = 2 ^ (Double.bits M - 53)
        ∧ M = q * B + r ∧ r < B ∧ 2 ^ 52 ≤ q ∧ q < 2 ^ 53
        ∧ ((q1 = q ∧ (2 * r < B ∨ (2 * r = B ∧ q % 2 = 0)))
          ∨ (q1 = q + 1 ∧ (B < 2 * r ∨ (2 * r = B ∧ q % 2 = 1))))
        ∧ ((2 ^ 2098 ≤ q1 * B ∧ Double.round neg M = Double.inf neg)
          ∨ (q1 * B < 2 ^ 2098 ∧ Double.round neg M = Double.fin neg (q1 * B)))) := by
  by_cases hb : Double.bits M ≤ 53
  · left
    exact ⟨hb, by unfold Double.round; rw [if_pos hb]⟩
  · right
    refine ⟨hb, ?_⟩
    obtain ⟨B, q, r, q1, hB, hq, hr, hM, hrB, hq52, hq53, hq1, hcase⟩ := round_step M hb
    refine ⟨B, q, r, q1, hB, hM, hrB, hq52, hq53, hcase, ?_⟩
    unfold Double.round
    rw [if_neg hb]
    simp only []
    rw [← hB, ← hr, ← hq, ← hq1]
    by_cases ho : 2 ^ 2098 ≤ q1 * B
    · left; exact ⟨ho, by rw [if_pos ho]⟩
    · right; exact ⟨by omega, by rw [if_neg ho]⟩

/-- Rounding yields a double. -/
theorem round_valid (neg : Bool) (M : Nat) : Double.Valid (Double.round neg M) := by
  rcases round_cases neg M with ⟨hb, h⟩ | ⟨hb, B, q, r, q1, hB, hM, hrB, hq52, hq53, hcase, h⟩
  · rw [h]
    have hlt := (bits_spec M).1
    refine ⟨?_, ?_⟩
    · have : Double.bits M - 53 = 0 := by omega
      rw [this]; simp
    · exact lt_of_lt_of_le hlt (Nat.pow_le_pow_right (by norm_num) (by omega))
  · rcases h with ⟨_, h⟩ | ⟨hfin, h⟩
    · rw [h]; trivial
    · rw [h]
      refine ⟨?_, hfin⟩
      have hq1 : q1 ≤ 2 ^ 53 := by rcases hcase with ⟨h1, _⟩ | ⟨h1, _⟩ <;> omega
      have hBd : B ∣ q1 * B := Dvd.intro_left q1 rfl
      by_cases hlt : q1 < 2 ^ 53
      · have hM1 : q1 * B < 2 ^ (53 + (Double.bits M - 53)) := by
          rw [pow_add, ← hB]
          exact Nat.mul_lt_mul_of_pos_right hlt (by rw [hB]; positivity)
        have hbits : Double.bits (q1 * B) ≤ 53 + (Double.bits M - 53) :=
          bitsAux_le (q1 * B) (q1 * B) _ hM1
        have : Double.bits (q1 * B) - 53 ≤ Double.bits M - 53 := by omega
        exact (pow_dvd_pow 2 this).trans (hB ▸ hBd)
      · have hq1e : q1 = 2 ^ 53 := by omega
        have hM1 : q1 * B < 2 ^ (54 + (Double.bits M - 53)) := by
          rw [pow_add, ← hB, hq1e]
          exact Nat.mul_lt_mul_of_pos_right (by norm_num) (by rw [hB]; positivity)
        have hbits : Double.bits (q1 * B) ≤ 54 + (Double.bits M - 53) :=
          bitsAux_le (q1 * B) (q1 * B) _ hM1
        have h1 : Double.bits (q1 * B) - 53 ≤ 1 + (Double.bits M - 53) := by omega
        refine (pow_dvd_pow 2 h1).trans ?_
        rw [pow_add, ← hB, hq1e]
        exact Nat.mul_dvd_mul (by norm_num) (dvd_refl B)

/-- The sum of two doubles is a double. -/
theorem add_valid (x y : Double) (hx : x.Valid) (hy : y.Valid) : (x + y).Valid := by
  show (Double.add x y).Valid
  have h0 : ∀ a : Bool, Double.Valid (Double.fin a 0) := by
    intro a
    exact ⟨by simp [Double.bits, Double.bitsAux], by positivity⟩
  cases x <;> cases y <;> simp only [Double.add] <;> try trivial
  · split <;> trivial
  · split
    · split
      · exact h0 _
      · exact round_valid _ _
    · split
      · exact h0 _
      · split
        · exact round_valid _ _
        · exact round_valid _ _

/-! ## Basic facts about the fleet operations -/

theorem addAll_vehicles (vs : List Vehicle) (start : Fleet × List Event) :
    (addAll vs start).1._vehicles = start.1._vehicles ++ vs := by
  induction vs generalizing start with
  | nil => simp [addAll]
  | cons v vs ih =>
    have h := ih ((start.1.AddVehicle v).1, start.2 ++ (start.1.AddVehicle v).2)
    simp only [addAll, List.foldl_cons] at h ⊢
    rw [h]
    simp [Fleet.AddVehicle]

theorem fleetOf_vehicles (vs : List Vehicle) : (fleetOf vs)._vehicles = vs := by
  simp [fleetOf, addAll_vehicles, Fleet.new]

theorem displayLoop_eq (shw : Double → String) (vs : List Vehicle) (init : List Event) :
    vs.foldl (fun out vehicle => out ++ [Event.cout (vehicle.DisplayInfo shw)]) init
      = init ++ vs.map (fun v => Event.cout (v.DisplayInfo shw)) := by
  induction vs generalizing init with
  | nil => simp
  | cons v vs ih => simp [ih]

theorem logEntries_append (a b : List Event) :
    logEntries (a ++ b) = logEntries a ++ logEntries b := by
  induction a with
  | nil => rfl
  | cons e a ih => cases e <;> simp [logEntries, ih]

theorem coutBlocks_append (a b : List Event) :
    coutBlocks (a ++ b) = coutBlocks a ++ coutBlocks b := by
  induction a with
  | nil => rfl
  | cons e a ih => cases e <;> simp [coutBlocks, ih]

theorem logEntries_map_cout (ts : List String) : logEntries (ts.map Event.cout) = [] := by
  induction ts with
  | nil => rfl
  | cons t ts ih => simpa [logEntries] using ih

theorem coutBlocks_map_cout (ts : List String) : coutBlocks (ts.map Event.cout) = ts := by
  induction ts with
  | nil => rfl
  | cons t ts ih => simpa [coutBlocks] using ih

theorem DisplayFleet_events (shw : Double → String) (this : Fleet) :
    (this.DisplayFleet shw).2
      = Event.Log "Вывод автопарка на экран" :: Event.cout "=== Fleet Overview ===\n"
          :: (this._vehicles.map (fun v => v.DisplayInfo shw)).map Event.cout := by
  simp [Fleet.DisplayFleet, displayLoop_eq]

theorem DisplayInfo_tag (shw : Double → String) (v : Vehicle) :
    ∃ rest, v.DisplayInfo shw = v.GetVehicleType ++ " - " ++ rest := by
  cases v <;>
    simp only [Vehicle.DisplayInfo, Car.DisplayInfo, Sedan.DisplayInfo, SUV.DisplayInfo,
      SportsCar.DisplayInfo, ElectricCar.DisplayInfo, String.append_assoc] <;>
    exact ⟨_, rfl⟩

/-! ## Classification tags -/

/-- C4: `GetVehicleType` returns the fixed tag of the concrete class whatever
the field values ("Car", "Sedan", "SUV", "Sports Car", "Electric Car"); two
Sedans with different trunk capacities are both tagged "Sedan"; the five tags
are pairwise distinct. -/
theorem GetVehicleType_fixed :
    (∀ c : Car, (Vehicle.car c).GetVehicleType = "Car")
    ∧ (∀ s : Sedan, (Vehicle.sedan s).GetVehicleType = "Sedan")
    ∧ (∀ s : SUV, (Vehicle.suv s).GetVehicleType = "SUV")
    ∧ (∀ s : SportsCar, (Vehicle.sportsCar s).GetVehicleType = "Sports Car")
    ∧ (∀ e : ElectricCar, (Vehicle.electricCar e).GetVehicleType = "Electric Car")
    ∧ (∀ (c : Car) (t1 t2 : Double),
        (Vehicle.sedan { toCar := c, _trunkCapacity := t1 }).GetVehicleType
          = (Vehicle.sedan { toCar := c, _trunkCapacity := t2 }).GetVehicleType)
    ∧ (∀ s1 s2 : Sedan, (Vehicle.sedan s1).GetVehicleType = (Vehicle.sedan s2).GetVehicleType)
    ∧ ["Car", "Sedan", "SUV", "Sports Car", "Electric Car"].Nodup := by
  refine ⟨fun _ => rfl, fun _ => rfl, fun _ => rfl, fun _ => rfl, fun _ => rfl,
    fun _ _ _ => rfl, fun _ _ => rfl, by decide⟩

/-! ## Rendering of the car family -/

/-- C5: for a Sedan, an SUV and a SportsCar `DisplayInfo` prints the common Car
line with the subtype's own tag, followed by one subtype-specific line (trunk
capacity; 4WD Yes/No and clearance; 0-100 time and top speed); for a plain Car
it prints the common line alone, tagged "Car". -/
theorem DisplayInfo_car_family (shw : Double → String) :
    (∀ c : Car, (Vehicle.car c).DisplayInfo shw = commonLine shw "Car" c)
    ∧ (∀ s : Sedan, (Vehicle.sedan s).DisplayInfo shw
        = commonLine shw (Vehicle.sedan s).GetVehicleType s.toCar
          ++ ("  Trunk capacity: " ++ shw s._trunkCapacity ++ " liters\n"))
    ∧ (∀ s : SUV, (Vehicle.suv s).DisplayInfo shw
        = commonLine shw (Vehicle.suv s).GetVehicleType s.toCar
          ++ ("  4WD: " ++ (if s._fourWheelDrive = true then "Yes" else "No")
              ++ ", Clearance: " ++ shw s._clearance ++ "mm\n"))
    ∧ (∀ s : SportsCar, (Vehicle.sportsCar s).DisplayInfo shw
        = commonLine shw (Vehicle.sportsCar s).GetVehicleType s.toCar
          ++ ("  0-100 km/h: " ++ shw s._zeroToHundred ++ "s, Top speed: "
              ++ showInt s._topSpeed ++ "km/h\n"))
    ∧ (∀ s : Sedan, (Vehicle.sedan s).GetVehicleType = "Sedan")
    ∧ (∀ s : SUV, (Vehicle.suv s).GetVehicleType = "SUV")
    ∧ (∀ s : SportsCar, (Vehicle.sportsCar s).GetVehicleType = "Sports Car") := by
  refine ⟨?_, ?_, ?_, ?_, fun _ => rfl, fun _ => rfl, fun _ => rfl⟩
  · intro c
    simp only [Vehicle.DisplayInfo, Car.DisplayInfo, commonLine, Vehicle.toCar,
      Vehicle.GetVehicleType, Car.GetVehicleType, String.append_assoc]
    rfl
  · intro s
    simp only [Vehicle.DisplayInfo, Sedan.DisplayInfo, Car.DisplayInfo, commonLine,
      Vehicle.toCar, String.append_assoc]
    rfl
  · intro s
    simp only [Vehicle.DisplayInfo, SUV.DisplayInfo, Car.DisplayInfo, commonLine,
      Vehicle.toCar, String.append_assoc]
    rfl
  · intro s
    simp only [Vehicle.DisplayInfo, SportsCar.DisplayInfo, Car.DisplayInfo, commonLine,
      Vehicle.toCar, String.append_assoc]
    rfl

/-! ## Fleet operations -/

/-- C2: for the fleet built by adding `v1..vN` in that order, `DisplayFleet`
logs once and then writes the banner line "=== Fleet Overview ===" followed by
the `DisplayInfo` output of `v1, ..., vN` in insertion order: exactly `N`
description blocks, the i-th of which begins with `GetVehicleType()` of `vi`. -/
theorem DisplayFleet_output (shw : Double → String) (vs : List Vehicle) :
    ((fleetOf vs).DisplayFleet shw).2
        = Event.Log "Вывод автопарка на экран" :: Event.cout "=== Fleet Overview ===\n"
            :: (vs.map (fun v => v.DisplayInfo shw)).map Event.cout
    ∧ coutBlocks ((fleetOf vs).DisplayFleet shw).2
        = "=== Fleet Overview ===\n" :: vs.map (fun v => v.DisplayInfo shw)
    ∧ coutText ((fleetOf vs).DisplayFleet shw).2
        = String.join ("=== Fleet Overview ===\n" :: vs.map (fun v => v.DisplayInfo shw))
    ∧ (coutBlocks ((fleetOf vs).DisplayFleet shw).2).tail.length = vs.length
    ∧ (∀ (i : Nat) (h : i < vs.length),
        (coutBlocks ((fleetOf vs).DisplayFleet shw).2).tail[i]?
            = some ((vs.get ⟨i, h⟩).DisplayInfo shw)
        ∧ ∃ rest, (vs.get ⟨i, h⟩).DisplayInfo shw
            = (vs.get ⟨i, h⟩).GetVehicleType ++ " - " ++ rest) := by
  have hb : coutBlocks ((fleetOf vs).DisplayFleet shw).2
      = "=== Fleet Overview ===\n" :: vs.map (fun v => v.DisplayInfo shw) := by
    rw [DisplayFleet_events, fleetOf_vehicles]
    simp only [coutBlocks, coutBlocks_map_cout]
  refine ⟨?_, hb, ?_, ?_, ?_⟩
  · rw [DisplayFleet_events, fleetOf_vehicles]
  · rw [coutText, hb]
  · rw [hb]; simp
  · intro i h
    refine ⟨?_, DisplayInfo_tag shw _⟩
    rw [hb]
    simp [List.getElem?_eq_getElem h]

/-- C3: `AddVehicle(v)` leaves the sequence equal to the previous one with `v`
appended at the end (earlier elements and their order unchanged, length one
more, also when `v` is already present) and emits exactly one log entry, whose
message ends with `GetVehicleType()` of `v`. -/
theorem AddVehicle_appends (this : Fleet) (v : Vehicle) :
    (this.AddVehicle v).1._vehicles = this._vehicles ++ [v]
    ∧ (this.AddVehicle v).1._vehicles.length = this._vehicles.length + 1
    ∧ (this.AddVehicle v).1._vehicles.take this._vehicles.length = this._vehicles
    ∧ (this.AddVehicle v).1._vehicles.getLast? = some v
    ∧ (this.AddVehicle v).2
        = [Event.Log ("Добавлено транспортное средство: " ++ v.GetVehicleType)]
    ∧ (∃ message, logEntries (this.AddVehicle v).2 = [message]
        ∧ Occurs v.GetVehicleType message)
    ∧ coutBlocks (this.AddVehicle v).2 = [] := by
  refine ⟨rfl, by simp [Fleet.AddVehicle], by simp [Fleet.AddVehicle],
    by simp [Fleet.AddVehicle], rfl, ?_, rfl⟩
  refine ⟨"Добавлено транспортное средство: " ++ v.GetVehicleType, rfl, ?_⟩
  exact ⟨"Добавлено транспортное средство: ".toList, [], by simp⟩

/-- C7: for a freshly created fleet with no vehicle added, `CalculateTotalValue`
returns exactly `0.0` and `DisplayFleet` writes the banner and no description
block. -/
theorem empty_fleet (shw : Double → String) :
    Fleet.new.CalculateTotalValue.2.1 = Double.zero
    ∧ (fleetOf []).CalculateTotalValue.2.1 = Double.zero
    ∧ coutBlocks (Fleet.new.DisplayFleet shw).2 = ["=== Fleet Overview ===\n"]
    ∧ coutText (Fleet.new.DisplayFleet shw).2 = "=== Fleet Overview ===\n"
    ∧ fleetOf [] = Fleet.new := by
  refine ⟨rfl, rfl, rfl, rfl, rfl⟩

/-- C9: `DisplayFleet` and `CalculateTotalValue` leave the fleet as it was (same
vehicles, same order, same fields) and each makes exactly one call of the
logger; `CalculateTotalValue` has no other effect. -/
theorem const_methods_frame (shw : Double → String) (this : Fleet) :
    (this.DisplayFleet shw).1 = this
    ∧ logEntries (this.DisplayFleet shw).2 = ["Вывод автопарка на экран"]
    ∧ this.CalculateTotalValue.1 = this
    ∧ this.CalculateTotalValue.2.2 = [Event.Log "Расчет общей стоимости автопарка"]
    ∧ logEntries this.CalculateTotalValue.2.2 = ["Расчет общей стоимости автопарка"] := by
  refine ⟨rfl, ?_, rfl, rfl, rfl⟩
  rw [DisplayFleet_events]
  simp only [logEntries, logEntries_map_cout]

/-! ## Total value -/

/-- The total of a fleet whose prices are doubles is a double. -/
theorem total_valid (this : Fleet) (h : ∀ v ∈ this._vehicles, v.GetPrice.Valid) :
    this.CalculateTotalValue.2.1.Valid := by
  have key : ∀ (vs : List Vehicle) (acc : Double), acc.Valid →
      (∀ v ∈ vs, v.GetPrice.Valid) →
      (vs.foldl (fun total vehicle => total + vehicle.GetPrice) acc).Valid := by
    intro vs
    induction vs with
    | nil => intro acc ha _; simpa using ha
    | cons v vs ih =>
      intro acc ha hv
      rw [List.foldl_cons]
      exact ih _ (add_valid _ _ ha (hv v (List.mem_cons_self _ _)))
        (fun w hw => hv w (List.mem_cons_of_mem _ hw))
  exact key _ _ ⟨by simp [Double.bits, Double.bitsAux], by positivity⟩ h

/-- C8: a Sedan with trunk capacity 500 and price 25000, an SUV with clearance
210 and price 35000, a SportsCar with top speed 320 and price 120000 and an
ElectricCar with battery 75 and price 45000, added in this order to an empty
fleet (whatever their other fields; in particular the fleet of `main`), give a
total value of exactly 225000. -/
theorem main_fleet_total :
    (fleetOf mainVehicles).CalculateTotalValue.2.1 = Double.ofNat 225000
    ∧ ∀ (m1 o1 f1 m2 o2 f2 m3 o3 f3 m4 o4 : String) (y1 d1 y2 d2 y3 d3 y4 d4 : Int)
        (e1 e2 e3 z r : Double) (w : Bool),
        (fleetOf
          [ .sedan (Sedan.new m1 o1 y1 (Double.ofNat 25000) d1 e1 f1 (Double.ofNat 500)),
            .suv (SUV.new m2 o2 y2 (Double.ofNat 35000) d2 e2 f2 w (Double.ofNat 210)),
            .sportsCar (SportsCar.new m3 o3 y3 (Double.ofNat 120000) d3 e3 f3 z 320),
            .electricCar (ElectricCar.new m4 o4 y4 (Double.ofNat 45000) d4 (Double.ofNat 75) r)
          ]).CalculateTotalValue.2.1 = Double.ofNat 225000 := by
  constructor
  · set_option maxRecDepth 100000 in decide
  · intros
    simp only [Fleet.CalculateTotalValue, fleetOf_vehicles, List.foldl_cons, List.foldl_nil,
      Vehicle.GetPrice, Vehicle.toCar, Sedan.new, SUV.new, SportsCar.new, ElectricCar.new,
      Car.new, AbstractVehicle.new, AbstractVehicle.GetPrice]
    set_option maxRecDepth 100000 in decide

/-! ## Prices -/

/-- C10 fails as stated: a `Car` constructed with the price `-1.0` reports that
negative price. -/
theorem negative_price_kept :
    (carPriced (Double.ofScaled true 1 0)).GetPrice = Double.ofScaled true 1 0
    ∧ (carPriced (Double.ofScaled true 1 0)).GetPrice.isNegative = true := by
  constructor
  · rfl
  · set_option maxRecDepth 100000 in decide

/-- C10 (amended): for every variant, `GetPrice` returns exactly the price the
object was constructed with, unchanged; it is negative exactly when that
argument was. -/
theorem GetPrice_is_constructor_argument (manufacturer model fuelType : String)
    (year doors topSpeed : Int) (price engineSize x y : Double) (w : Bool) :
    (Vehicle.car (Car.new manufacturer model year price doors engineSize fuelType)).GetPrice
        = price
    ∧ (Vehicle.sedan
        (Sedan.new manufacturer model year price doors engineSize fuelType x)).GetPrice = price
    ∧ (Vehicle.suv
        (SUV.new manufacturer model year price doors engineSize fuelType w x)).GetPrice = price
    ∧ (Vehicle.sportsCar
        (SportsCar.new manufacturer model year price doors engineSize fuelType x
          topSpeed)).GetPrice = price
    ∧ (Vehicle.electricCar
        (ElectricCar.new manufacturer model year price doors x y)).GetPrice = price
    ∧ ((Vehicle.car
        (Car.new manufacturer model year price doors engineSize fuelType)).GetPrice.isNegative
          = price.isNegative) := by
  refine ⟨rfl, rfl, rfl, rfl, rfl, rfl⟩

/-! ## The electric car line -/

theorem digitChar_ne_E (n : Nat) : Nat.digitChar (n % 10) ≠ 'E' := by
  have h : n % 10 < 10 := Nat.mod_lt _ (by norm_num)
  generalize n % 10 = k at h
  interval_cases k <;> decide

theorem toDigitsCore_no_E (fuel : Nat) :
    ∀ (n : Nat) (ds : List Char), 'E' ∉ ds → 'E' ∉ Nat.toDigitsCore 10 fuel n ds := by
  induction fuel with
  | zero => intro n ds h; simpa [Nat.toDigitsCore] using h
  | succ fuel ih =>
    intro n ds h
    have hd : 'E' ∉ Nat.digitChar (n % 10) :: ds := by
      simp only [List.mem_cons, not_or]
      exact ⟨fun hc => digitChar_ne_E _ hc.symm, h⟩
    unfold Nat.toDigitsCore
    simp only
    split
    · exact hd
    · exact ih _ _ hd

theorem toDigits_no_E (n : Nat) : 'E' ∉ Nat.toDigits 10 n :=
  toDigitsCore_no_E _ _ _ (List.not_mem_nil _)

theorem showInt_no_E (n : Int) : 'E' ∉ (showInt n).toList := by
  cases n with
  | ofNat m =>
    show 'E' ∉ (Nat.toDigits 10 m).asString.toList
    simpa [List.asString] using toDigits_no_E m
  | negSucc m =>
    show 'E' ∉ ("-" ++ (Nat.toDigits 10 (m + 1)).asString).toList
    simpa [List.asString] using toDigits_no_E (m + 1)

theorem prefix_of_prefix_append_cons {needle X B : List Char} {b : Char}
    (hb : b ∉ needle) (h : needle <+: X ++ b :: B) : needle <+: X := by
  rcases List.prefix_or_prefix_of_prefix h (List.prefix_append X (b :: B)) with h1 | h1
  · exact h1
  · obtain ⟨t, rfl⟩ := h1
    rw [List.prefix_append_right_inj] at h
    cases t with
    | nil => simp
    | cons c t =>
      rw [List.cons_prefix_cons] at h
      exact absurd (by simp [h.1]) hb

theorem infix_of_infix_append_cons {c : Char} {rest X B : List Char} {b : Char}
    (hb : b ∉ c :: rest) (hB : c ∉ b :: B) (h : c :: rest <:+: X ++ b :: B) :
    c :: rest <:+: X := by
  induction X with
  | nil =>
    exfalso
    exact hB (h.subset (List.mem_cons_self _ _))
  | cons x X ih =>
    rw [List.cons_append, List.infix_cons_iff] at h
    rcases h with h | h
    · exact (prefix_of_prefix_append_cons (X := x :: X) hb h).isInfix
    · exact List.infix_cons (ih h)

theorem stripZeros_no_E {ds : List Char} (h : 'E' ∉ ds) : 'E' ∉ stripZeros ds := by
  intro hm
  unfold stripZeros at hm
  rw [List.mem_reverse] at hm
  exact h (List.mem_reverse.mp ((List.dropWhile_suffix _).subset hm))

theorem digitsPadded_no_E (w n : Nat) : 'E' ∉ digitsPadded w n := by
  unfold digitsPadded
  simp only [List.mem_append, List.mem_replicate, not_or]
  exact ⟨fun h => absurd h.2 (by decide), toDigits_no_E n⟩

theorem showMagnitude_no_E (N : Nat) : 'E' ∉ showMagnitude N := by
  have hd : ∀ w n, 'E' ∉ digitsPadded w n := digitsPadded_no_E
  have ht : ∀ (k w n : Nat), 'E' ∉ (digitsPadded w n).take k :=
    fun k w n h => hd w n (List.mem_of_mem_take h)
  have hs : ∀ (k w n : Nat), 'E' ∉ stripZeros ((digitsPadded w n).drop k) :=
    fun k w n => stripZeros_no_E (fun h => hd w n (List.mem_of_mem_drop h))
  have hs0 : ∀ (w n : Nat), 'E' ∉ stripZeros (digitsPadded w n) :=
    fun w n => stripZeros_no_E (hd w n)
  have hs1 : ∀ (w n : Nat), 'E' ∉ stripZeros (digitsPadded w n).tail :=
    fun w n => stripZeros_no_E (fun h => hd w n (List.mem_of_mem_tail h))
  unfold showMagnitude
  simp only []
  split_ifs <;>
    simp [hd, ht, hs, hs0, hs1, List.mem_replicate]

theorem showDouble_no_E (d : Double) : 'E' ∉ (showDouble d).toList := by
  cases d with
  | nan neg => cases neg <;> decide
  | inf neg => cases neg <;> decide
  | fin neg mag =>
    have := showMagnitude_no_E mag
    unfold showDouble
    simp only [String.toList]
    split_ifs <;> simp [this]
theorem strip_head {needle l : List Char} {a : Char} (hp : ¬ needle <+: a :: l)
    (h : needle <:+: a :: l) : needle <:+: l := by
  rcases List.infix_cons_iff.mp h with h | h
  · exact absurd h hp
  · exact h

/-- Numbers being printed without an upper-case `E`, the text "Engine: " is in
an ElectricCar line exactly when it is in the printed `manufacturer model `
text: the function prints no such label of its own. -/
theorem electric_occurs (shw : Double → String) (e : ElectricCar)
    (hshw : ∀ d, 'E' ∉ (shw d).toList) :
    Occurs "Engine: " (e.DisplayInfo shw)
      ↔ Occurs "Engine: " (e._manufacturer ++ " " ++ e._model ++ " ") := by
  have h1 := showInt_no_E e._year
  have h2 := showInt_no_E e._doors
  have h3 := hshw e._price
  have h4 := hshw e._batteryCapacity
  have h5 := hshw e._range
  unfold Occurs
  simp only [ElectricCar.DisplayInfo, Vehicle.GetVehicleType, ElectricCar.GetVehicleType,
    String.toList, String.data_append, List.append_assoc, List.cons_append, List.nil_append]
    at h1 h2 h3 h4 h5 ⊢
  generalize hT : (showInt e._year).data ++ _ = T
  have hE : 'E' ∉ '(' :: T := by
    rw [← hT]
    simp [h1, h2, h3, h4, h5]
  have hsplit : e._manufacturer.data ++ ' ' :: (e._model.data ++ ' ' :: '(' :: T)
      = (e._manufacturer.data ++ ' ' :: (e._model.data ++ [' '])) ++ '(' :: T := by simp
  constructor
  · intro h
    iterate 15 replace h := strip_head (by simp [List.cons_prefix_cons]) h
    rw [hsplit] at h
    exact infix_of_infix_append_cons (by decide) hE h
  · intro h
    refine h.trans ⟨"Electric Car - ".data, '(' :: T, ?_⟩
    simp

theorem electric_ne_car_line (shw : Double → String) (e : ElectricCar) :
    e.DisplayInfo shw ≠ Car.DisplayInfo shw (.electricCar e) := by
  intro h
  have hd := congrArg String.data h
  simp only [ElectricCar.DisplayInfo, Car.DisplayInfo, Vehicle.GetVehicleType,
    ElectricCar.GetVehicleType, Vehicle.toCar, String.data_append, List.append_assoc,
    List.cons_append, List.nil_append] at hd
  simp at hd

/-- C6: for every ElectricCar, whatever its field values, `DisplayInfo` prints
a single line rendered on its own from the tag "Electric Car", manufacturer,
model, year, price, doors, battery capacity and range. It has no engine-size
field: the line does not depend on the engine size (nor on the fuel type), and
it is never the line `Car::DisplayInfo` prints for the same object, which is
the one that carries the field `Engine: <engine size>L`. -/
theorem electric_line (shw : Double → String) (e : ElectricCar) :
    (Vehicle.electricCar e).DisplayInfo shw
        = "Electric Car - " ++ e._manufacturer ++ " " ++ e._model ++ " (" ++ showInt e._year
          ++ "), Price: $" ++ shw e._price ++ ", Doors: " ++ showInt e._doors
          ++ ", Battery: " ++ shw e._batteryCapacity ++ " kWh, Range: " ++ shw e._range
          ++ " km\n"
    ∧ (∀ (x : Double) (f : String),
        (Vehicle.electricCar { e with _engineSize := x, _fuelType := f }).DisplayInfo shw
          = (Vehicle.electricCar e).DisplayInfo shw)
    ∧ (Vehicle.electricCar e).DisplayInfo shw ≠ Car.DisplayInfo shw (.electricCar e)
    ∧ Car.DisplayInfo shw (.electricCar e)
        = "Electric Car - " ++ e._manufacturer ++ " " ++ e._model ++ " (" ++ showInt e._year
          ++ "), Price: $" ++ shw e._price ++ ", Doors: " ++ showInt e._doors
          ++ ", Engine: " ++ shw e._engineSize ++ "L, Fuel: " ++ e._fuelType ++ "\n" := by
  refine ⟨?_, fun _ _ => rfl, electric_ne_car_line shw e, ?_⟩
  · simp only [Vehicle.DisplayInfo, ElectricCar.DisplayInfo, Vehicle.GetVehicleType,
      ElectricCar.GetVehicleType, String.append_assoc]
    rfl
  · simp only [Car.DisplayInfo, Vehicle.GetVehicleType, ElectricCar.GetVehicleType,
      Vehicle.toCar, String.append_assoc]
    rfl

/-- Manufacturer and model are printed as given: the text "Engine: " can be
seen in an ElectricCar line only when those two fields spell it, as with the
manufacturer "Engine:". -/
theorem manufacturer_text_printed_as_given :
    Occurs "Engine: "
      ((ElectricCar.new "Engine:" "X" 2023 (Double.ofNat 45000) 4 (Double.ofNat 75)
        (Double.ofNat 450)).DisplayInfo showDouble) := by
  refine ⟨"Electric Car - ".toList, ?_, ?_⟩
  · exact ("X (2023), Price: $" ++ showDouble (Double.ofNat 45000) ++ ", Doors: 4, Battery: "
      ++ showDouble (Double.ofNat 75) ++ " kWh, Range: " ++ showDouble (Double.ofNat 450)
      ++ " km\n").toList
  · simp only [ElectricCar.DisplayInfo, ElectricCar.new, Car.new, AbstractVehicle.new,
      Vehicle.GetVehicleType, ElectricCar.GetVehicleType, String.toList, String.data_append,
      List.append_assoc]
    rfl

/-- The Tesla of `main`, printed with the default rendering of numbers, shows
no "Engine: " text. -/
theorem tesla_line_no_engine_text :
    ¬ Occurs "Engine: "
      ((ElectricCar.new "Tesla" "Model 3" 2023 (Double.ofNat 45000) 4
        (Double.ofNat 75) (Double.ofNat 450)).DisplayInfo showDouble) :=
  fun h => absurd
    ((electric_occurs showDouble
      (ElectricCar.new "Tesla" "Model 3" 2023 (Double.ofNat 45000) 4 (Double.ofNat 75)
        (Double.ofNat 450)) showDouble_no_E).mp h)
    (by decide)

/-! ## The run of `main` -/

set_option maxRecDepth 100000 in
/-- What `DisplayFleet` writes for the fleet of `main`, numbers printed in the
default format. -/
theorem main_display_text :
    coutText ((fleetOf mainVehicles).DisplayFleet showDouble).2
      = "=== Fleet Overview ===\n"
        ++ "Sedan - Toyota Camry (2022), Price: $25000, Doors: 4, Engine: 2.5L, Fuel: Gasoline\n"
        ++ "  Trunk capacity: 500 liters\n"
        ++ "SUV - Ford Explorer (2021), Price: $35000, Doors: 5, Engine: 3L, Fuel: Gasoline\n"
        ++ "  4WD: Yes, Clearance: 210mm\n"
        ++ "Sports Car - Porsche 911 (2023), Price: $120000, Doors: 2, Engine: 3L, Fuel: Gasoline\n"
        ++ "  0-100 km/h: 3.7s, Top speed: 320km/h\n"
        ++ "Electric Car - Tesla Model 3 (2023), Price: $45000, Doors: 4, Battery: 75 kWh, Range: 450 km\n"
        := by
  decide

set_option maxRecDepth 100000 in
/-- The total of `main` is printed as `225000`. -/
theorem main_total_text :
    showDouble (fleetOf mainVehicles).CalculateTotalValue.2.1 = "225000" := by
  decide

set_option maxRecDepth 100000 in
/-- With the console logger of `main`, the log line of `DisplayFleet` comes out
on the same stream, before the banner. -/
theorem main_display_console :
    consoleOutput ((fleetOf mainVehicles).DisplayFleet showDouble).2
      = "[Console] Вывод автопарка на экран\n"
        ++ coutText ((fleetOf mainVehicles).DisplayFleet showDouble).2 := by
  decide

set_option maxRecDepth 100000 in
/-- Sample additions: a half-way sum goes to the even neighbour, upwards or
downwards; other sums go to the nearer neighbour; `0.1 + 0.2` is
`0.30000000000000004`. -/
theorem rounding_examples :
    Double.ofNat 9007199254740992 + Double.ofNat 1 = Double.ofNat 9007199254740992
    ∧ Double.ofNat 9007199254740992 + Double.ofNat 3 = Double.ofNat 9007199254740996
    ∧ Double.ofNat 18014398509481984 + Double.ofNat 3 = Double.ofNat 18014398509481988
    ∧ Double.ofNat 18014398509481984 + Double.ofNat 1 = Double.ofNat 18014398509481984
    ∧ Double.ofScaled false 3602879701896397 (-55) + Double.ofScaled false 3602879701896397 (-54)
        = Double.ofScaled false 1351079888211149 (-52) := by
  decide

set_option maxRecDepth 100000 in
/-- The prices used to show the order dependence, and every number passed to a
constructor in `main`, are doubles. -/
theorem sample_values_valid :
    Double.Valid (Double.ofNat 9007199254740992) ∧ Double.Valid (Double.ofNat 1)
    ∧ Double.Valid (Double.ofNat 9007199254740994)
    ∧ Double.Valid (Double.ofScaled true 1 0)
    ∧ ∀ v ∈ mainVehicles, Double.Valid v.GetPrice ∧ Double.Valid v.toCar._engineSize := by
  decide

end FleetDemo
